import Mathlib

/-!
Shallow embedding of `src/libqueue/libqueue.c`: a bounded FIFO queue with
overflow policies, blocking pop, and pluggable payload alloc/free hooks.

Modelling conventions:
* C pointers that may be NULL are `Option`; the NULL pointer itself is `none`.
* A `void *` payload pointer is a `Ptr`: either NULL, an owned byte buffer
  (produced by `memdup`), or an opaque handle produced by an alloc hook.
* The alloc hook is an arbitrary Lean function `List Nat → Nat → Ptr`
  (its return value is stored verbatim, as in the C).  The free hook has no
  modelled behaviour other than being invoked, so it is represented by an
  opaque tag `Nat`; invoking it is recorded as an `Effect`.
* `free`/hook invocations are recorded in an `Effect` trace returned by the
  operations that release memory.
* The blocking wait loop of `queue_pop` (mutex + condition variable with
  1-second `pthread_cond_timedwait` slices) is driven by an explicit
  environment: a list of `WaitEvent`s, one per completed wait, each giving
  the `pthread_cond_timedwait` return class and the shared fields
  (`items`, `depth`) observed when the mutex is re-acquired.  A result of
  `none` means the calling thread is still blocked after consuming the
  whole environment (in a quiet single-threaded run the environment is a
  list of timeouts with an unchanged queue, so `none` for every such
  environment models "never returns").
* C `int` fields (`depth`, `max_depth`) are `Int`; no claim depends on
  32-bit wrap-around, which would need billions of queued items.
-/

/-- A C `void *` payload value. -/
inductive Ptr where
  | null : Ptr
  | buf (bytes : List Nat) : Ptr
  | handle (h : Nat) : Ptr
  deriving DecidableEq, Repr

/-- Embeds `struct iovec { void *iov_base; size_t iov_len; }`. -/
structure Iovec where
  iov_base : Ptr
  iov_len : Nat
  deriving DecidableEq, Repr

/-- Embeds `struct item`: both `iovec` fields exist in the struct; `CALLOC`
zero-initialises them, and `item_alloc` fills exactly one. -/
structure Item where
  data : Iovec
  opq : Iovec
  deriving DecidableEq, Repr

/-- Embeds `enum queue_mode`. -/
inductive QueueMode where
  | QUEUE_FULL_FLUSH : QueueMode
  | QUEUE_FULL_RING : QueueMode
  deriving DecidableEq, Repr

/-- Type of a caller-supplied `alloc_hook`: takes the caller's data and
length, returns an opaque payload pointer. -/
def AllocHookFn : Type := List Nat → Nat → Ptr

/-- Embeds `struct queue` (mutex and condition variable are implicit in the
operation semantics; the shared fields they guard are `items` and
`depth`). -/
structure QueueState where
  items : List Item
  depth : Int
  max_depth : Int
  mode : QueueMode
  alloc_hook : Option AllocHookFn
  free_hook : Option Nat

/-- Observable memory-release / signalling actions performed by the code. -/
inductive Effect where
  | freed_buf (p : Ptr) : Effect
  | hook_freed (hook : Nat) (p : Ptr) : Effect
  | freed_item (it : Item) : Effect
  | signalled : Effect
  deriving DecidableEq, Repr

/-- Return class of one `pthread_cond_timedwait` call. -/
inductive WaitRet where
  | signaled : WaitRet
  | timedout : WaitRet
  | eintr : WaitRet
  | other : WaitRet
  deriving DecidableEq, Repr

/-- One completed wait inside `queue_pop`'s loop: the wait's return class
and the shared fields (`items`, `depth`) observed once the mutex is held
again (concurrent threads may have changed them during the wait). -/
structure WaitEvent where
  ret : WaitRet
  items : List Item
  depth : Int

/-- Models `memdup(data, len)`: duplicate `len` bytes into a fresh buffer;
`ok = false` models allocation failure (returns NULL). -/
def memdup (ok : Bool) (data : List Nat) (len : Nat) : Ptr :=
  if ok then Ptr.buf (data.take len) else Ptr.null

/-- Embeds `item_alloc(q, data, len)`.  `callocOk` models the `CALLOC` of the
item node succeeding, `memdupOk` the payload duplication succeeding.
If the queue has an alloc hook, its return value is stored verbatim in
`opaque`; otherwise `data` holds the duplicated buffer.  The result of
`memdup` is not checked. -/
def item_alloc (q : Option QueueState) (data : List Nat) (len : Nat)
    (callocOk memdupOk : Bool) : Option Item :=
  match q with
  | none => none
  | some qs =>
    if callocOk then
      match qs.alloc_hook with
      | some hook =>
        some { data := ⟨Ptr.null, 0⟩, opq := ⟨hook data len, len⟩ }
      | none =>
        some { data := ⟨memdup memdupOk data len, len⟩, opq := ⟨Ptr.null, 0⟩ }
    else none

/-- Embeds `item_free(q, item)`: which release path runs is decided by the
queue's `free_hook` field at the time of the call. -/
def item_free (q : Option QueueState) (item : Option Item) : List Effect :=
  match q with
  | none => []
  | some qs =>
    match item with
    | none => []
    | some it =>
      match qs.free_hook with
      | some hook => [Effect.hook_freed hook it.opq.iov_base, Effect.freed_item it]
      | none => [Effect.freed_buf it.data.iov_base, Effect.freed_item it]

/-- Embeds `queue_set_mode(q, mode)`. -/
def queue_set_mode (q : Option QueueState) (mode : QueueMode) :
    Option QueueState × Int :=
  match q with
  | none => (none, -1)
  | some qs => (some { qs with mode := mode }, 0)

/-- Embeds `queue_set_hook(q, alloc_cb, free_cb)`. -/
def queue_set_hook (q : Option QueueState) (alloc_cb : Option AllocHookFn)
    (free_cb : Option Nat) : Option QueueState × Int :=
  match q with
  | none => (none, -1)
  | some qs => (some { qs with alloc_hook := alloc_cb, free_hook := free_cb }, 0)

/-- Embeds `queue_set_depth(q, depth)`: stores any integer unchecked. -/
def queue_set_depth (q : Option QueueState) (depth : Int) :
    Option QueueState × Int :=
  match q with
  | none => (none, -1)
  | some qs => (some { qs with max_depth := depth }, 0)

/-- Embeds `queue_create()` (the successful branch): empty list, `depth = 0`,
`max_depth = QUEUE_MAX_DEPTH = 200`, mode `QUEUE_FULL_FLUSH`, no hooks. -/
def queue_create : QueueState :=
  { items := [], depth := 0, max_depth := 200,
    mode := QueueMode.QUEUE_FULL_FLUSH, alloc_hook := none, free_hook := none }

/-- Embeds `queue_flush(q)`: under the lock, delete and `item_free` each item in
list order, reset `depth` to 0, signal the condition variable. -/
def queue_flush (q : Option QueueState) :
    Option QueueState × Int × List Effect :=
  match q with
  | none => (none, -1, [])
  | some qs =>
    (some { qs with items := [], depth := 0 }, 0,
      (qs.items.flatMap (fun it => item_free (some qs) (some it))) ++ [Effect.signalled])

/-- The `while (list_empty(&q->head)) { pthread_cond_timedwait ... }`
loop of `queue_pop`, driven by the wait environment.  A
`pthread_cond_timedwait` return of 0 (`WaitRet.signaled`) breaks out of
the loop without re-checking emptiness; every other return class loops
and re-checks.  Returns the shared fields at loop exit, or `none` if the
environment is exhausted while the list is still empty (thread still
blocked). -/
def popLoop : List WaitEvent → List Item → Int → Option (List Item × Int)
  | _, it :: its, d => some (it :: its, d)
  | [], [], _ => none
  | e :: env, [], _ =>
    if e.ret = WaitRet.signaled then some (e.items, e.depth)
    else popLoop env e.items e.depth

/-- Embeds `queue_pop(q)`.  Result `none`: still blocked in the wait loop.
Result `some (q', it?)`: the call returned, with queue state `q'`
(`none` exactly when the argument was NULL) and returned item `it?`
(`none` models returning the NULL item pointer). -/
def queue_pop (q : Option QueueState) (env : List WaitEvent) :
    Option (Option QueueState × Option Item) :=
  match q with
  | none => some (none, none)
  | some qs =>
    match popLoop env qs.items qs.depth with
    | none => none
    | some (its, d) =>
      match its with
      | [] => some (some { qs with items := [], depth := d }, none)
      | it :: rest => some (some { qs with items := rest, depth := d - 1 }, some it)

/-- Embeds `queue_pop_free(q)`: pop, then `item_free` the popped item if any. -/
def queue_pop_free (q : Option QueueState) (env : List WaitEvent) :
    Option (Option QueueState × List Effect) :=
  match queue_pop q env with
  | none => none
  | some (q', none) => some (q', [])
  | some (q', some it) => some (q', item_free q' (some it))

/-- Embeds `queue_push(q, item)`.  The overflow check runs first: on
`depth >= max_depth`, flush mode flushes the queue, ring mode calls
`queue_pop_free` (which can block on an empty queue — result `none`).
Then the item is appended, `depth` incremented, and one waiter woken. -/
def queue_push (q : Option QueueState) (item : Option Item)
    (env : List WaitEvent) : Option (Option QueueState × Int × List Effect) :=
  match q, item with
  | none, _ => some (none, -1, [])
  | some _, none => some (q, -1, [])
  | some qs, some it =>
    let handled : Option (QueueState × List Effect) :=
      if qs.depth ≥ qs.max_depth then
        match qs.mode with
        | QueueMode.QUEUE_FULL_FLUSH =>
          match queue_flush (some qs) with
          | (some qs', _, effs) => some (qs', effs)
          | (none, _, effs) => some (qs, effs)
        | QueueMode.QUEUE_FULL_RING =>
          match queue_pop_free (some qs) env with
          | none => none
          | some (some qs', effs) => some (qs', effs)
          | some (none, effs) => some (qs, effs)
      else some (qs, [])
    match handled with
    | none => none
    | some (qs', effs) =>
      some (some { qs' with items := qs'.items ++ [it], depth := qs'.depth + 1 },
        0, effs ++ [Effect.signalled])

/-- Embeds `queue_get_depth(q)`: returns `q->depth` (no NULL check in the
source; modelled for a valid queue only). -/
def queue_get_depth (qs : QueueState) : Int :=
  qs.depth

/-- Embeds `queue_destroy(q)`: flush (releasing every item), then destroy the
primitives and free the queue; the memory-release trace is the flush's. -/
def queue_destroy (q : Option QueueState) : List Effect :=
  match q with
  | none => []
  | some qs => (queue_flush (some qs)).2.2

/-- An owned-copy item exactly as `item_alloc` builds one on a hookless
queue with a successful `memdup` of the whole buffer. -/
def ownedItem (bytes : List Nat) : Item :=
  { data := ⟨Ptr.buf bytes, bytes.length⟩, opq := ⟨Ptr.null, 0⟩ }

def itemA : Item := ownedItem [1]

def itemB : Item := ownedItem [2]

def itemC : Item := ownedItem [3]

/-- Push a list of (non-NULL) items one by one in a quiet run (no
concurrent threads, so the wait environment of each push is empty);
`none` if some push blocks. -/
def pushAll : QueueState → List Item → Option QueueState
  | qs, [] => some qs
  | qs, it :: its =>
    match queue_push (some qs) (some it) [] with
    | some (some qs', _, _) => pushAll qs' its
    | _ => none

/-- Pop `n` times in a quiet run, collecting the returned items; `none`
if some pop blocks or returns the NULL item. -/
def popN : Nat → QueueState → Option (QueueState × List Item)
  | 0, qs => some (qs, [])
  | n + 1, qs =>
    match queue_pop (some qs) [] with
    | some (some qs', some it) =>
      match popN n qs' with
      | some (qs'', its) => some (qs'', it :: its)
      | none => none
    | _ => none

/-- One client-visible operation on a live queue. -/
inductive Op where
  | push (it : Item) : Op
  | pop : Op
  | popRelease : Op
  | flush : Op
  | setMode (m : QueueMode) : Op
  | setDepth (d : Int) : Op
  | setHooks (alloc_cb : Option AllocHookFn) (free_cb : Option Nat) : Op

/-- Run one operation in a quiet single-threaded run; `none` when the
operation blocks (pop-family on an empty queue). -/
def runOp (qs : QueueState) : Op → Option QueueState
  | Op.push it =>
    match queue_push (some qs) (some it) [] with
    | some (some qs', _, _) => some qs'
    | _ => none
  | Op.pop =>
    match queue_pop (some qs) [] with
    | some (some qs', _) => some qs'
    | _ => none
  | Op.popRelease =>
    match queue_pop_free (some qs) [] with
    | some (some qs', _) => some qs'
    | _ => none
  | Op.flush =>
    match queue_flush (some qs) with
    | (some qs', _, _) => some qs'
    | _ => none
  | Op.setMode m => (queue_set_mode (some qs) m).1
  | Op.setDepth d => (queue_set_depth (some qs) d).1
  | Op.setHooks a f => (queue_set_hook (some qs) a f).1

/-- Run a sequence of operations; `none` as soon as one blocks. -/
def runOps : QueueState → List Op → Option QueueState
  | qs, [] => some qs
  | qs, op :: ops =>
    match runOp qs op with
    | some qs' => runOps qs' ops
    | none => none

/-- The configuration fields (`mode`, `max_depth`, `alloc_hook`,
`free_hook`) of `b` agree with those of `a`. -/
def configEq (a b : QueueState) : Prop :=
  b.mode = a.mode ∧ b.max_depth = a.max_depth ∧
    b.alloc_hook = a.alloc_hook ∧ b.free_hook = a.free_hook

/-- A queue with `max_depth` 2 in the default FLUSH_ON_FULL mode. -/
def flushQ2 : QueueState := { queue_create with max_depth := 2 }

/-- A queue with `max_depth` 2 in RING_ON_FULL mode. -/
def ringQ2 : QueueState :=
  { queue_create with max_depth := 2, mode := QueueMode.QUEUE_FULL_RING }

/-- A queue with `max_depth` 0 in RING_ON_FULL mode. -/
def ringQ0 : QueueState :=
  { queue_create with max_depth := 0, mode := QueueMode.QUEUE_FULL_RING }

/-- A sample alloc hook used for concrete instantiations. -/
def hookFn : AllocHookFn := fun _ _ => Ptr.handle 5

/-- A queue with the sample hook pair installed (free hook tag 7). -/
def hookedQ : QueueState :=
  { queue_create with alloc_hook := some hookFn, free_hook := some 7 }

/-- Recognizes a free-hook invocation in an effect trace. -/
def isHookFreed : Effect → Bool := fun e =>
  match e with
  | Effect.hook_freed _ _ => true
  | _ => false

/-! ### Unfolding lemmas for the wait loop, pop and push -/

lemma popLoop_cons_items (env : List WaitEvent) (it : Item) (its : List Item)
    (d : Int) : popLoop env (it :: its) d = some (it :: its, d) := by
  cases env <;> rfl

lemma popLoop_cons_nil (e : WaitEvent) (env : List WaitEvent) (d : Int) :
    popLoop (e :: env) [] d =
      if e.ret = WaitRet.signaled then some (e.items, e.depth)
      else popLoop env e.items e.depth := rfl

lemma popLoop_quiet :
    ∀ (env : List WaitEvent),
      (∀ e ∈ env, e.ret ≠ WaitRet.signaled ∧ e.items = []) →
      ∀ d : Int, popLoop env [] d = none
  | [], _, _ => rfl
  | e :: env, h, d => by
    have h1 := h e (List.mem_cons_self e env)
    rw [popLoop_cons_nil, if_neg h1.1, h1.2]
    exact popLoop_quiet env (fun x hx => h x (List.mem_cons_of_mem e hx)) e.depth

lemma queue_pop_cons (qs : QueueState) (it : Item) (rest : List Item)
    (env : List WaitEvent) (h : qs.items = it :: rest) :
    queue_pop (some qs) env =
      some (some { qs with items := rest, depth := qs.depth - 1 }, some it) := by
  simp [queue_pop, h, popLoop_cons_items]

lemma queue_pop_empty_quiet (qs : QueueState) (env : List WaitEvent)
    (h : qs.items = [])
    (hq : ∀ e ∈ env, e.ret ≠ WaitRet.signaled ∧ e.items = []) :
    queue_pop (some qs) env = none := by
  simp [queue_pop, h, popLoop_quiet env hq]

lemma queue_pop_free_cons (qs : QueueState) (it : Item) (rest : List Item)
    (env : List WaitEvent) (h : qs.items = it :: rest) :
    queue_pop_free (some qs) env =
      some (some { qs with items := rest, depth := qs.depth - 1 },
        item_free (some { qs with items := rest, depth := qs.depth - 1 })
          (some it)) := by
  simp [queue_pop_free, queue_pop_cons qs it rest env h]

lemma queue_push_not_full (qs : QueueState) (it : Item) (env : List WaitEvent)
    (h : ¬ qs.depth ≥ qs.max_depth) :
    queue_push (some qs) (some it) env =
      some (some { qs with items := qs.items ++ [it], depth := qs.depth + 1 },
        0, [Effect.signalled]) := by
  simp [queue_push, h]

lemma queue_push_full_flush (qs : QueueState) (it : Item) (env : List WaitEvent)
    (hfull : qs.depth ≥ qs.max_depth)
    (hmode : qs.mode = QueueMode.QUEUE_FULL_FLUSH) :
    queue_push (some qs) (some it) env =
      some (some { qs with items := [it], depth := 1 }, 0,
        ((qs.items.flatMap (fun x => item_free (some qs) (some x))) ++
          [Effect.signalled]) ++ [Effect.signalled]) := by
  simp [queue_push, hfull, hmode, queue_flush]

lemma queue_push_full_ring_cons (qs : QueueState) (it x : Item)
    (rest : List Item) (env : List WaitEvent)
    (hfull : qs.depth ≥ qs.max_depth)
    (hmode : qs.mode = QueueMode.QUEUE_FULL_RING)
    (hitems : qs.items = x :: rest) :
    queue_push (some qs) (some it) env =
      some (some { qs with items := rest ++ [it], depth := qs.depth - 1 + 1 }, 0,
        item_free (some { qs with items := rest, depth := qs.depth - 1 }) (some x) ++
          [Effect.signalled]) := by
  simp [queue_push, hfull, hmode, queue_pop_free, queue_pop_cons qs x rest env hitems]

lemma queue_push_full_ring_empty_quiet (qs : QueueState) (it : Item)
    (env : List WaitEvent) (hfull : qs.depth ≥ qs.max_depth)
    (hmode : qs.mode = QueueMode.QUEUE_FULL_RING) (hitems : qs.items = [])
    (hq : ∀ e ∈ env, e.ret ≠ WaitRet.signaled ∧ e.items = []) :
    queue_push (some qs) (some it) env = none := by
  simp [queue_push, hfull, hmode, queue_pop_free,
    queue_pop_empty_quiet qs env hitems hq]

/-! ### Sequential push/pop runs -/

lemma pushAll_no_overflow :
    ∀ (xs : List Item) (qs : QueueState),
      qs.depth = qs.items.length →
      (qs.items.length + xs.length : Int) ≤ qs.max_depth →
      pushAll qs xs =
        some { qs with items := qs.items ++ xs,
                       depth := qs.items.length + xs.length }
  | [], qs, hd, _ => by
    simp only [pushAll, List.append_nil, List.length_nil, Nat.cast_zero, add_zero]
    rw [← hd]
  | x :: xs, qs, hd, hroom => by
    have hlt : ¬ qs.depth ≥ qs.max_depth := by
      simp only [List.length_cons] at hroom
      push_cast at hroom
      omega
    have hrec := pushAll_no_overflow xs
      { qs with items := qs.items ++ [x], depth := qs.depth + 1 }
      (by simp [hd])
      (by simp only [List.length_append, List.length_cons, List.length_nil]
          simp only [List.length_cons] at hroom
          push_cast at hroom ⊢
          omega)
    rw [pushAll]
    simp only [queue_push_not_full qs x [] hlt, hrec]
    simp only [Option.some.injEq, QueueState.mk.injEq, List.append_assoc,
      List.singleton_append, List.length_append, List.length_cons,
      List.length_nil, true_and, and_true]
    push_cast
    omega

lemma popN_yields :
    ∀ (l : List Item) (rest : List Item) (qs : QueueState),
      qs.items = l ++ rest →
      popN l.length qs =
        some ({ qs with items := rest, depth := qs.depth - l.length }, l)
  | [], rest, qs, h => by
    simp only [List.nil_append] at h
    simp only [popN, List.length_nil, Nat.cast_zero, sub_zero, Option.some.injEq]
    rw [← h]
  | x :: l, rest, qs, h => by
    have hpop := queue_pop_cons qs x (l ++ rest) [] (by simpa using h)
    have hrec := popN_yields l rest
      { qs with items := l ++ rest, depth := qs.depth - 1 } rfl
    simp only [List.length_cons, popN, hpop, hrec]
    simp only [Option.some.injEq, QueueState.mk.injEq, true_and, and_true,
      Prod.mk.injEq]
    push_cast
    omega

/-! ### Depth bookkeeping across operations -/

lemma runOp_preserves_depth (qs qs' : QueueState) (op : Op)
    (h : qs.depth = qs.items.length) (hrun : runOp qs op = some qs') :
    qs'.depth = qs'.items.length := by
  cases op with
  | push it =>
    by_cases hfull : qs.depth ≥ qs.max_depth
    · cases hmode : qs.mode with
      | QUEUE_FULL_FLUSH =>
        simp only [runOp, queue_push_full_flush qs it [] hfull hmode] at hrun
        obtain rfl := Option.some.inj hrun
        simp
      | QUEUE_FULL_RING =>
        cases hitems : qs.items with
        | nil =>
          simp only [runOp,
            queue_push_full_ring_empty_quiet qs it [] hfull hmode hitems
              (by simp)] at hrun
          exact Option.noConfusion hrun
        | cons x rest =>
          simp only [runOp,
            queue_push_full_ring_cons qs it x rest [] hfull hmode hitems] at hrun
          obtain rfl := Option.some.inj hrun
          rw [hitems] at h
          simp only [List.length_cons] at h
          simp only [List.length_append, List.length_cons, List.length_nil]
          push_cast at h ⊢
          omega
    · simp only [runOp, queue_push_not_full qs it [] hfull] at hrun
      obtain rfl := Option.some.inj hrun
      simp only [List.length_append, List.length_cons, List.length_nil]
      push_cast at h ⊢
      omega
  | pop =>
    cases hitems : qs.items with
    | nil =>
      simp only [runOp, queue_pop_empty_quiet qs [] hitems (by simp)] at hrun
      exact Option.noConfusion hrun
    | cons x rest =>
      simp only [runOp, queue_pop_cons qs x rest [] hitems] at hrun
      obtain rfl := Option.some.inj hrun
      rw [hitems] at h
      simp only [List.length_cons] at h
      push_cast at h ⊢
      omega
  | popRelease =>
    cases hitems : qs.items with
    | nil =>
      simp only [runOp, queue_pop_free,
        queue_pop_empty_quiet qs [] hitems (by simp)] at hrun
      exact Option.noConfusion hrun
    | cons x rest =>
      simp only [runOp, queue_pop_free_cons qs x rest [] hitems] at hrun
      obtain rfl := Option.some.inj hrun
      rw [hitems] at h
      simp only [List.length_cons] at h
      push_cast at h ⊢
      omega
  | flush =>
    simp only [runOp, queue_flush] at hrun
    obtain rfl := Option.some.inj hrun
    simp
  | setMode m =>
    simp only [runOp, queue_set_mode] at hrun
    obtain rfl := Option.some.inj hrun
    exact h
  | setDepth d =>
    simp only [runOp, queue_set_depth] at hrun
    obtain rfl := Option.some.inj hrun
    exact h
  | setHooks a f =>
    simp only [runOp, queue_set_hook] at hrun
    obtain rfl := Option.some.inj hrun
    exact h

lemma runOps_preserves_depth :
    ∀ (ops : List Op) (qs qs' : QueueState),
      qs.depth = qs.items.length → runOps qs ops = some qs' →
      qs'.depth = qs'.items.length
  | [], qs, qs', h, hrun => by
    simp only [runOps, Option.some.injEq] at hrun
    rw [← hrun]
    exact h
  | op :: ops, qs, qs', h, hrun => by
    rw [runOps] at hrun
    cases hstep : runOp qs op with
    | none => rw [hstep] at hrun; exact absurd hrun (by simp)
    | some qs1 =>
      rw [hstep] at hrun
      exact runOps_preserves_depth ops qs1 qs'
        (runOp_preserves_depth qs qs1 op h hstep) hrun

/-! ### Configuration-field frame lemmas -/

lemma queue_pop_configEq (qs qs' : QueueState) (env : List WaitEvent)
    (o : Option Item) (h : queue_pop (some qs) env = some (some qs', o)) :
    configEq qs qs' := by
  cases hl : popLoop env qs.items qs.depth with
  | none =>
    simp only [queue_pop, hl] at h
    exact Option.noConfusion h
  | some p =>
    obtain ⟨its, d⟩ := p
    cases its with
    | nil =>
      simp only [queue_pop, hl, Option.some.injEq, Prod.mk.injEq] at h
      obtain ⟨rfl, -⟩ := h
      exact ⟨rfl, rfl, rfl, rfl⟩
    | cons x rest =>
      simp only [queue_pop, hl, Option.some.injEq, Prod.mk.injEq] at h
      obtain ⟨rfl, -⟩ := h
      exact ⟨rfl, rfl, rfl, rfl⟩

lemma queue_pop_free_configEq (qs qs1 : QueueState) (env : List WaitEvent)
    (effs : List Effect)
    (h : queue_pop_free (some qs) env = some (some qs1, effs)) :
    configEq qs qs1 := by
  cases hp : queue_pop (some qs) env with
  | none =>
    simp only [queue_pop_free, hp] at h
    exact Option.noConfusion h
  | some p =>
    obtain ⟨q2, o⟩ := p
    cases o with
    | none =>
      simp only [queue_pop_free, hp, Option.some.injEq, Prod.mk.injEq] at h
      obtain ⟨rfl, -⟩ := h
      exact queue_pop_configEq qs qs1 env none hp
    | some it =>
      simp only [queue_pop_free, hp, Option.some.injEq, Prod.mk.injEq] at h
      obtain ⟨rfl, -⟩ := h
      exact queue_pop_configEq qs qs1 env (some it) hp

lemma queue_push_configEq (qs qs' : QueueState) (it : Item)
    (env : List WaitEvent) (r : Int) (effs : List Effect)
    (h : queue_push (some qs) (some it) env = some (some qs', r, effs)) :
    configEq qs qs' := by
  by_cases hfull : qs.depth ≥ qs.max_depth
  · cases hmode : qs.mode with
    | QUEUE_FULL_FLUSH =>
      simp only [queue_push, hfull, hmode, if_true, queue_flush,
        Option.some.injEq, Prod.mk.injEq] at h
      obtain ⟨rfl, -⟩ := h
      exact ⟨hmode.symm, rfl, rfl, rfl⟩
    | QUEUE_FULL_RING =>
      cases hpf : queue_pop_free (some qs) env with
      | none =>
        simp only [queue_push, hfull, hmode, hpf, if_true] at h
        exact Option.noConfusion h
      | some p =>
        obtain ⟨q1, effs1⟩ := p
        cases q1 with
        | none =>
          simp only [queue_push, hfull, hmode, hpf, if_true, Option.some.injEq,
            Prod.mk.injEq] at h
          obtain ⟨rfl, -⟩ := h
          exact ⟨hmode.symm, rfl, rfl, rfl⟩
        | some qs1 =>
          simp only [queue_push, hfull, hmode, hpf, if_true, Option.some.injEq,
            Prod.mk.injEq] at h
          obtain ⟨rfl, -⟩ := h
          obtain ⟨e1, e2, e3, e4⟩ := queue_pop_free_configEq qs qs1 env effs1 hpf
          exact ⟨e1, e2, e3, e4⟩
  · simp only [queue_push, hfull, if_false, Option.some.injEq,
      Prod.mk.injEq] at h
    obtain ⟨rfl, -⟩ := h
    exact ⟨rfl, rfl, rfl, rfl⟩

/-! ### Hook release traces -/

lemma queue_flush_hook_trace (qs : QueueState) (h : Nat)
    (hfh : qs.free_hook = some h) :
    (queue_flush (some qs)).2.2 =
      qs.items.flatMap (fun it =>
        [Effect.hook_freed h it.opq.iov_base, Effect.freed_item it]) ++
        [Effect.signalled] := by
  simp [queue_flush, item_free, hfh]

lemma countP_hookFreed_flatMap (h : Nat) :
    ∀ l : List Item,
      (l.flatMap (fun it =>
        [Effect.hook_freed h it.opq.iov_base, Effect.freed_item it])).countP
          isHookFreed = l.length
  | [] => rfl
  | x :: l => by
    rw [List.flatMap_cons, List.countP_append, countP_hookFreed_flatMap h l]
    norm_num [List.countP_cons, isHookFreed, Nat.add_comm]

/-! ### Claims -/

/-- Claim C1: pushing a sequence of items into an empty queue whose
`max_depth` leaves room for all of them (so the depth stays below
`max_depth` at every push and no overflow handling runs) and then popping
that many times returns exactly the pushed items, head = oldest first. -/
theorem fifo_order_preserved (qs : QueueState) (xs : List Item)
    (hempty : qs.items = []) (hdepth : qs.depth = 0)
    (hroom : (xs.length : Int) ≤ qs.max_depth) :
    pushAll qs xs = some { qs with items := xs, depth := xs.length } ∧
    popN xs.length { qs with items := xs, depth := xs.length } =
      some ({ qs with items := [], depth := 0 }, xs) := by
  have hpush := pushAll_no_overflow xs qs (by rw [hdepth, hempty]; rfl)
    (by rw [hempty]; simpa using hroom)
  constructor
  · rw [hpush]
    simp [hempty]
  · have hpop := popN_yields xs [] { qs with items := xs, depth := xs.length }
      (by simp)
    rw [hpop]
    simp

/-- Witness for C1: pushing `itemA, itemB` into a fresh queue and popping
twice returns `itemA` then `itemB`. -/
theorem fifo_order_preserved_witness :
    queue_create.items = [] ∧ queue_create.depth = 0 ∧
    (([itemA, itemB].length : Int) ≤ queue_create.max_depth) ∧
    pushAll queue_create [itemA, itemB] =
      some { queue_create with items := [itemA, itemB], depth := 2 } ∧
    popN 2 { queue_create with items := [itemA, itemB], depth := 2 } =
      some ({ queue_create with items := [], depth := 0 }, [itemA, itemB]) :=
  ⟨rfl, rfl, by decide,
    (fifo_order_preserved queue_create [itemA, itemB] rfl rfl (by decide)).1,
    (fifo_order_preserved queue_create [itemA, itemB] rfl rfl (by decide)).2⟩

/-- Claim C2 (code bug evidence): `queue_flush` signals the condition
variable, and a consumer blocked in `queue_pop` on a NON-null empty queue
that is woken by that signal (`pthread_cond_timedwait` returns 0 while
the list is still empty) breaks out of its wait loop and returns the NULL
item — contradicting the claim that the "no item" result is returned only
for a null queue and that a flush-woken consumer re-checks emptiness and
keeps waiting.  The `if (ret == 0) break;` in the source skips the
emptiness re-check. -/
theorem pop_returns_null_on_flush_wake :
    (queue_flush (some queue_create)).2.2 = [Effect.signalled] ∧
    queue_pop (some queue_create) [⟨WaitRet.signaled, [], 0⟩] =
      some (some queue_create, none) :=
  ⟨rfl, rfl⟩

/-- Claim C3: after any quiet sequence of operations on a fresh queue
that completes (push, pop, popAndRelease, flush, setters), `depth` equals
the number of items held and is never negative; `queue_get_depth` returns
that count. -/
theorem depth_matches_item_count (ops : List Op) (qs : QueueState)
    (h : runOps queue_create ops = some qs) :
    queue_get_depth qs = qs.items.length ∧ 0 ≤ queue_get_depth qs := by
  have hinv := runOps_preserves_depth ops queue_create qs rfl h
  have hget : queue_get_depth qs = qs.depth := rfl
  rw [hget, hinv]
  exact ⟨rfl, Int.natCast_nonneg _⟩

/-- Witness for C3: a five-operation run ends with depth 1 = one item. -/
theorem depth_matches_item_count_witness :
    runOps queue_create
        [Op.push itemA, Op.push itemB, Op.pop, Op.flush, Op.push itemC] =
      some { queue_create with items := [itemC], depth := 1 } ∧
    queue_get_depth { queue_create with items := [itemC], depth := 1 } =
        ({ queue_create with items := [itemC], depth := 1 } : QueueState).items.length ∧
    0 ≤ queue_get_depth { queue_create with items := [itemC], depth := 1 } :=
  ⟨rfl, depth_matches_item_count
    [Op.push itemA, Op.push itemB, Op.pop, Op.flush, Op.push itemC] _ rfl⟩

/-- Claim C4 counterexample: an item created while hooks were absent
holds an owned duplicated buffer, but after hooks are installed,
`item_free` consults the queue's CURRENT `free_hook` and invokes the free
hook on the item's (null) `opaque` handle — the owned buffer is NOT
freed, so the release path is re-evaluated, not fixed at creation. -/
theorem release_reevaluates_hooks_cex :
    item_alloc (some queue_create) [1, 2, 3] 3 true true =
      some { data := ⟨Ptr.buf [1, 2, 3], 3⟩, opq := ⟨Ptr.null, 0⟩ } ∧
    queue_set_hook (some queue_create) (some hookFn) (some 7) =
      (some hookedQ, 0) ∧
    item_free (some hookedQ)
        (some { data := ⟨Ptr.buf [1, 2, 3], 3⟩, opq := ⟨Ptr.null, 0⟩ }) =
      [Effect.hook_freed 7 Ptr.null,
       Effect.freed_item { data := ⟨Ptr.buf [1, 2, 3], 3⟩, opq := ⟨Ptr.null, 0⟩ }] ∧
    Effect.freed_buf (Ptr.buf [1, 2, 3]) ∉
      item_free (some hookedQ)
        (some { data := ⟨Ptr.buf [1, 2, 3], 3⟩, opq := ⟨Ptr.null, 0⟩ }) :=
  ⟨rfl, rfl, rfl, by decide⟩

/-- Claim C4 amended: which payload FIELD an item populates is decided at
creation time by `alloc_hook` presence, but the RELEASE path is decided
anew at each `item_free` call from the queue's `free_hook` at that
moment: with a free hook installed the hook is invoked on the item's
`opaque` handle (whatever variant the item holds), and without one
`free(data.iov_base)` runs. -/
theorem release_path_decided_at_release_time :
    (∀ (qs : QueueState) (f : AllocHookFn) (data : List Nat) (len : Nat)
        (mOk : Bool), qs.alloc_hook = some f →
        item_alloc (some qs) data len true mOk =
          some { data := ⟨Ptr.null, 0⟩, opq := ⟨f data len, len⟩ }) ∧
    (∀ (qs : QueueState) (data : List Nat) (len : Nat) (mOk : Bool),
        qs.alloc_hook = none →
        item_alloc (some qs) data len true mOk =
          some { data := ⟨memdup mOk data len, len⟩, opq := ⟨Ptr.null, 0⟩ }) ∧
    (∀ (qs : QueueState) (h : Nat) (it : Item), qs.free_hook = some h →
        item_free (some qs) (some it) =
          [Effect.hook_freed h it.opq.iov_base, Effect.freed_item it]) ∧
    (∀ (qs : QueueState) (it : Item), qs.free_hook = none →
        item_free (some qs) (some it) =
          [Effect.freed_buf it.data.iov_base, Effect.freed_item it]) := by
  refine ⟨?_, ?_, ?_, ?_⟩
  · intro qs f data len mOk hah
    simp [item_alloc, hah]
  · intro qs data len mOk hah
    simp [item_alloc, hah]
  · intro qs h it hfh
    simp [item_free, hfh]
  · intro qs it hfh
    simp [item_free, hfh]

/-- Witness for the amended C4: releasing an owned-copy item on a queue
whose free hook is now installed invokes the hook on the null handle. -/
theorem release_path_decided_at_release_time_witness :
    hookedQ.free_hook = some 7 ∧
    item_free (some hookedQ)
        (some { data := ⟨Ptr.buf [1, 2], 2⟩, opq := ⟨Ptr.null, 0⟩ }) =
      [Effect.hook_freed 7 Ptr.null,
       Effect.freed_item { data := ⟨Ptr.buf [1, 2], 2⟩, opq := ⟨Ptr.null, 0⟩ }] :=
  ⟨rfl, release_path_decided_at_release_time.2.2.1 hookedQ 7 _ rfl⟩

/-- Claim C5: with `max_depth = 2` in FLUSH_ON_FULL mode, pushing A, B, C
into an empty queue leaves only C (A and B are released by the flush
before C's insertion, as the effect trace shows) and depth is 1. -/
theorem flush_on_full_keeps_last :
    pushAll flushQ2 [itemA, itemB, itemC] =
      some { flushQ2 with items := [itemC], depth := 1 } ∧
    queue_get_depth { flushQ2 with items := [itemC], depth := 1 } = 1 ∧
    queue_push (some { flushQ2 with items := [itemA, itemB], depth := 2 })
        (some itemC) [] =
      some (some { flushQ2 with items := [itemC], depth := 1 }, 0,
        [Effect.freed_buf (Ptr.buf [1]), Effect.freed_item itemA,
         Effect.freed_buf (Ptr.buf [2]), Effect.freed_item itemB,
         Effect.signalled, Effect.signalled]) :=
  ⟨rfl, rfl, rfl⟩

/-- Claim C6: with `max_depth = 2` in RING_ON_FULL mode, pushing A, B, C
into an empty queue evicts and releases exactly the oldest item A,
leaving B then C; two pops then return B then C. -/
theorem ring_on_full_evicts_oldest :
    pushAll ringQ2 [itemA, itemB, itemC] =
      some { ringQ2 with items := [itemB, itemC], depth := 2 } ∧
    queue_push (some { ringQ2 with items := [itemA, itemB], depth := 2 })
        (some itemC) [] =
      some (some { ringQ2 with items := [itemB, itemC], depth := 2 }, 0,
        [Effect.freed_buf (Ptr.buf [1]), Effect.freed_item itemA,
         Effect.signalled]) ∧
    popN 2 { ringQ2 with items := [itemB, itemC], depth := 2 } =
      some ({ ringQ2 with items := [], depth := 0 }, [itemB, itemC]) :=
  ⟨rfl, rfl, rfl⟩

/-- Claim C7: with hooks installed, `item_alloc` stores the alloc hook's
return value verbatim in the item (no copy is made), a single
`item_free` invokes the free hook exactly once and never takes the
default buffer-free path, and destroying the queue invokes the free hook
exactly once per held item with no default-path free. -/
theorem hook_fidelity :
    (∀ (qs : QueueState) (f : AllocHookFn) (data : List Nat) (len : Nat)
        (mOk : Bool), qs.alloc_hook = some f →
        item_alloc (some qs) data len true mOk =
          some { data := ⟨Ptr.null, 0⟩, opq := ⟨f data len, len⟩ }) ∧
    (∀ (qs : QueueState) (h : Nat) (it : Item), qs.free_hook = some h →
        item_free (some qs) (some it) =
          [Effect.hook_freed h it.opq.iov_base, Effect.freed_item it]) ∧
    (∀ (qs : QueueState) (h : Nat) (it : Item) (p : Ptr),
        qs.free_hook = some h →
        Effect.freed_buf p ∉ item_free (some qs) (some it)) ∧
    (∀ (qs : QueueState) (h : Nat), qs.free_hook = some h →
        (queue_destroy (some qs)).countP isHookFreed = qs.items.length ∧
        ∀ p : Ptr, Effect.freed_buf p ∉ queue_destroy (some qs)) := by
  refine ⟨?_, ?_, ?_, ?_⟩
  · intro qs f data len mOk hah
    simp [item_alloc, hah]
  · intro qs h it hfh
    simp [item_free, hfh]
  · intro qs h it p hfh
    simp [item_free, hfh]
  · intro qs h hfh
    have htr : queue_destroy (some qs) = (queue_flush (some qs)).2.2 := rfl
    rw [htr, queue_flush_hook_trace qs h hfh]
    constructor
    · simp only [List.countP_append, countP_hookFreed_flatMap h qs.items]
      rfl
    · intro p hp
      rw [List.mem_append] at hp
      cases hp with
      | inl hp =>
        rw [List.mem_flatMap] at hp
        obtain ⟨it, -, hmem⟩ := hp
        simp at hmem
      | inr hp => simp at hp

/-- Witness for C7: on `hookedQ` the created item holds the hook's
handle verbatim and its release invokes free hook 7 on that handle. -/
theorem hook_fidelity_witness :
    hookedQ.alloc_hook = some hookFn ∧ hookedQ.free_hook = some 7 ∧
    item_alloc (some hookedQ) [4, 5] 2 true true =
      some { data := ⟨Ptr.null, 0⟩, opq := ⟨Ptr.handle 5, 2⟩ } ∧
    item_free (some hookedQ)
        (some { data := ⟨Ptr.null, 0⟩, opq := ⟨Ptr.handle 5, 2⟩ }) =
      [Effect.hook_freed 7 (Ptr.handle 5),
       Effect.freed_item { data := ⟨Ptr.null, 0⟩, opq := ⟨Ptr.handle 5, 2⟩ }] :=
  ⟨rfl, rfl, hook_fidelity.1 hookedQ hookFn [4, 5] 2 true rfl,
    hook_fidelity.2.1 hookedQ 7 _ rfl⟩

/-- Claim C8 counterexample: on a hookless non-null queue whose `memdup`
fails (duplication failure), `item_alloc` does NOT fail: it returns an
item whose buffer pointer is NULL with the requested length, because the
source never checks `memdup`'s result. -/
theorem item_alloc_unchecked_memdup_cex :
    item_alloc (some queue_create) [9] 1 true false =
      some { data := ⟨Ptr.null, 1⟩, opq := ⟨Ptr.null, 0⟩ } ∧
    item_alloc (some queue_create) [9] 1 true false ≠ none :=
  ⟨rfl, by decide⟩

/-- Claim C8 amended: on a hookless queue, `item_alloc` fails exactly
when the queue reference is null or allocating the item node itself
fails; a duplication failure is not detected and yields an item with a
null buffer of the requested length, while a successful duplication
yields an owned copy of the first `len` bytes. -/
theorem item_alloc_failure_characterization :
    (∀ (q : Option QueueState) (data : List Nat) (len : Nat) (cOk mOk : Bool),
        (∀ qs, q = some qs → qs.alloc_hook = none) →
        (item_alloc q data len cOk mOk = none ↔ q = none ∨ cOk = false)) ∧
    (∀ (qs : QueueState) (data : List Nat) (len : Nat),
        qs.alloc_hook = none →
        item_alloc (some qs) data len true true =
          some { data := ⟨Ptr.buf (data.take len), len⟩,
                 opq := ⟨Ptr.null, 0⟩ }) ∧
    (∀ (qs : QueueState) (data : List Nat) (len : Nat),
        qs.alloc_hook = none →
        item_alloc (some qs) data len true false =
          some { data := ⟨Ptr.null, len⟩, opq := ⟨Ptr.null, 0⟩ }) := by
  refine ⟨?_, ?_, ?_⟩
  · intro q data len cOk mOk hnh
    cases q with
    | none => simp [item_alloc]
    | some qs =>
      have hah := hnh qs rfl
      cases cOk with
      | false => simp [item_alloc]
      | true => simp [item_alloc, hah]
  · intro qs data len hah
    simp [item_alloc, hah, memdup]
  · intro qs data len hah
    simp [item_alloc, hah, memdup]

/-- Witness for the amended C8: a successful creation duplicates the
first byte of the caller's buffer. -/
theorem item_alloc_failure_characterization_witness :
    queue_create.alloc_hook = none ∧
    item_alloc (some queue_create) [7, 8] 1 true true =
      some { data := ⟨Ptr.buf [7], 1⟩, opq := ⟨Ptr.null, 0⟩ } :=
  ⟨rfl, item_alloc_failure_characterization.2.1 queue_create [7, 8] 1 rfl⟩

/-- Claim C9: `queue_set_depth` stores any integer (zero and negative
included) with no validation beyond the null check and returns success;
and with `max_depth ≤ 0` in RING_ON_FULL mode, a push onto an empty
queue triggers eviction, which pops from the empty queue and — absent
any concurrent producer (every wait times out or is interrupted with the
queue still empty) — never returns, so the push does not terminate. -/
theorem set_depth_unchecked_ring_push_blocks :
    (∀ (qs : QueueState) (d : Int),
        queue_set_depth (some qs) d = (some { qs with max_depth := d }, 0)) ∧
    (∀ (qs : QueueState) (it : Item) (env : List WaitEvent),
        qs.items = [] → qs.depth = 0 → qs.max_depth ≤ 0 →
        qs.mode = QueueMode.QUEUE_FULL_RING →
        (∀ e ∈ env, e.ret ≠ WaitRet.signaled ∧ e.items = []) →
        queue_push (some qs) (some it) env = none) := by
  refine ⟨fun qs d => rfl, ?_⟩
  intro qs it env hitems hdepth hmax hmode hq
  exact queue_push_full_ring_empty_quiet qs it env (by omega) hmode hitems hq

/-- Witness for C9: storing -5 succeeds, and a push on `ringQ0` is still
blocked after two quiet waits. -/
theorem set_depth_unchecked_ring_push_blocks_witness :
    queue_set_depth (some queue_create) (-5) =
      (some { queue_create with max_depth := -5 }, 0) ∧
    ringQ0.items = [] ∧ ringQ0.depth = 0 ∧ ringQ0.max_depth ≤ 0 ∧
    ringQ0.mode = QueueMode.QUEUE_FULL_RING ∧
    queue_push (some ringQ0) (some itemA)
      [⟨WaitRet.timedout, [], 0⟩, ⟨WaitRet.eintr, [], 0⟩] = none :=
  ⟨set_depth_unchecked_ring_push_blocks.1 queue_create (-5), rfl, rfl,
    by decide, rfl,
    set_depth_unchecked_ring_push_blocks.2 ringQ0 itemA
      [⟨WaitRet.timedout, [], 0⟩, ⟨WaitRet.eintr, [], 0⟩] rfl rfl (by decide) rfl
      (by
        intro e he
        rcases List.mem_cons.mp he with rfl | he
        · exact ⟨by decide, rfl⟩
        · rcases List.mem_cons.mp he with rfl | he
          · exact ⟨by decide, rfl⟩
          · cases he)⟩

/-- Claim C10: push, pop, popAndRelease and flush leave the
configuration fields (`mode`, `max_depth`, `alloc_hook`, `free_hook`)
unchanged whenever they return a queue state, whatever the concurrent
wait environment; the three setters change exactly their own fields. -/
theorem ops_preserve_config :
    (∀ (qs qs' : QueueState) (it : Item) (env : List WaitEvent) (r : Int)
        (effs : List Effect),
        queue_push (some qs) (some it) env = some (some qs', r, effs) →
        configEq qs qs') ∧
    (∀ (qs qs' : QueueState) (env : List WaitEvent) (o : Option Item),
        queue_pop (some qs) env = some (some qs', o) → configEq qs qs') ∧
    (∀ (qs qs' : QueueState) (env : List WaitEvent) (effs : List Effect),
        queue_pop_free (some qs) env = some (some qs', effs) →
        configEq qs qs') ∧
    (∀ (qs qs' : QueueState) (r : Int) (effs : List Effect),
        queue_flush (some qs) = (some qs', r, effs) → configEq qs qs') ∧
    (∀ (qs : QueueState) (m : QueueMode),
        queue_set_mode (some qs) m = (some { qs with mode := m }, 0)) ∧
    (∀ (qs : QueueState) (a : Option AllocHookFn) (f : Option Nat),
        queue_set_hook (some qs) a f =
          (some { qs with alloc_hook := a, free_hook := f }, 0)) ∧
    (∀ (qs : QueueState) (d : Int),
        queue_set_depth (some qs) d = (some { qs with max_depth := d }, 0)) := by
  refine ⟨?_, ?_, ?_, ?_, fun qs m => rfl, fun qs a f => rfl, fun qs d => rfl⟩
  · intro qs qs' it env r effs h
    exact queue_push_configEq qs qs' it env r effs h
  · intro qs qs' env o h
    exact queue_pop_configEq qs qs' env o h
  · intro qs qs' env effs h
    exact queue_pop_free_configEq qs qs' env effs h
  · intro qs qs' r effs h
    simp only [queue_flush, Prod.mk.injEq, Option.some.injEq] at h
    obtain ⟨rfl, -⟩ := h
    exact ⟨rfl, rfl, rfl, rfl⟩

/-- Witness for C10: a push on a fresh queue preserves the
configuration fields. -/
theorem ops_preserve_config_witness :
    configEq queue_create { queue_create with items := [itemA], depth := 1 } :=
  ops_preserve_config.1 queue_create
    { queue_create with items := [itemA], depth := 1 } itemA [] 0
    [Effect.signalled] rfl
